import Mathlib

/-! Verification of the swarmauri_crypto_rust engine
(src/pkgs/standards/swarmauri_crypto_rust/src/lib.rs): a stateless
ChaCha20-Poly1305 AEAD engine with placeholder key wrap/unwrap, exposed
through pyo3.  Bytes (Rust `u8`) are modelled as `Nat`; byte slices as
`List Nat`; `Option<&[u8]>` as `Option (List Nat)`; fallible `PyResult`
methods as `Except CryptoError`.  The `ring` cipher primitives that the
engine delegates to are not part of the repository and are modelled from
the spec, as documented on each such definition. -/

/-- Key Reference structure (lib.rs, `struct KeyRef`). -/
structure KeyRef where
  kid : String
  version : Nat
  key_type : String
  uses : List String
  material : Option (List Nat)
  public : Option (List Nat)
deriving DecidableEq

/-- AEAD Ciphertext structure (lib.rs, `struct AEADCiphertext`). -/
structure AEADCiphertext where
  kid : String
  version : Nat
  alg : String
  nonce : List Nat
  ct : List Nat
  tag : List Nat
  aad : Option (List Nat)
deriving DecidableEq

/-- Wrapped Key structure (lib.rs, `struct WrappedKey`). -/
structure WrappedKey where
  kek_kid : String
  kek_version : Nat
  wrap_alg : String
  wrapped : List Nat
deriving DecidableEq

/-- Typed error kinds of spec section 7.  The Rust code raises Python
exceptions; the mapping used throughout this file is the spec's:
`PyValueError` on key material ↦ `InvalidKey`, on a caller-supplied nonce
length ↦ `InvalidNonce`, on wrapped-key length ↦ `UnwrapFailure`;
`PyRuntimeError` from the AEAD open ↦ `AuthenticationFailure`; every other
`PyRuntimeError` (cipher construction, nonce construction, RNG failure)
↦ `CryptoBackendFailure`. -/
inductive CryptoError where
  | InvalidKey
  | InvalidNonce
  | AuthenticationFailure
  | CryptoBackendFailure
  | UnwrapFailure
deriving DecidableEq

/-- Modelled from the spec: `ring::rand::SystemRandom`, the secure random
source, which is not in src/ (lib.rs only constructs it and calls `fill`).
`ok` says whether the source is available; `byteAt i` is the i-th byte it
would produce. -/
structure SystemRandom where
  ok : Bool
  byteAt : Nat → Nat

/-- Modelled from the spec: `SecureRandom::fill` overwrites every position
of the buffer in place — so on success the result has exactly the buffer's
length — and fails exactly when the source is unavailable (spec 4.3). -/
def SystemRandom.fill (r : SystemRandom) (buf : List Nat) : Option (List Nat) :=
  if r.ok then some ((List.range buf.length).map r.byteAt) else none

/-- Injective base-256 encoding of a byte list (low byte first, leading
marker 1 so that length is recovered).  Entries are reduced mod 256, so the
encoding is injective exactly on lists of bytes.  Used only inside the
modelled ring primitives below. -/
def encBytes : List Nat → Nat
  | [] => 1
  | b :: l => encBytes l * 256 + b % 256

/-- Modelled from the spec: the ChaCha20 keystream byte at offset `i` under
`(key, nonce)`.  lib.rs delegates the cipher to `ring::aead::CHACHA20_POLY1305`,
which is not in src/; the spec fixes only that the cipher is a
length-preserving stream XOR, so any concrete keystream function is
adequate — no claim depends on its values. -/
def ksByte (key nonce : List Nat) (i : Nat) : Nat :=
  (encBytes key + 31 * encBytes nonce + 131 * i) % 256

/-- The stream-cipher layer of ring's seal/open: XOR the input against the
keystream starting at offset `i`. -/
def xorStream (key nonce : List Nat) : Nat → List Nat → List Nat
  | _, [] => []
  | i, b :: l => (b ^^^ ksByte key nonce i) :: xorStream key nonce (i + 1) l

/-- Modelled from the spec: the 16-byte Poly1305 authentication tag that
ring computes over `(aad, ct)` under `(key, nonce)`.  The spec (4.2)
requires that any tag or AAD mismatch be rejected, so the tag is modelled
as an authenticator that determines its transcript: its first entry is an
injective pairing of the encoded key, nonce, aad and ciphertext. -/
def sealTag (key nonce aad ct : List Nat) : List Nat :=
  Nat.pair (Nat.pair (encBytes key) (encBytes nonce))
      (Nat.pair (encBytes aad) (encBytes ct)) :: List.replicate 15 0

/-- Modelled from the spec: ring's `seal_in_place_separate_tag` — returns
the ciphertext (same length as the plaintext) and a separate 16-byte tag. -/
def ringSeal (key nonce aad pt : List Nat) : List Nat × List Nat :=
  (xorStream key nonce 0 pt, sealTag key nonce aad (xorStream key nonce 0 pt))

/-- Modelled from the spec: ring's `open_in_place` on a `ct ‖ tag` buffer:
fails if the buffer is shorter than the 16-byte tag, otherwise splits the
last 16 bytes off as the tag, verifies it over the rest, and on success
returns the decrypted prefix. -/
def ringOpen (key nonce aad data : List Nat) : Option (List Nat) :=
  if data.length < 16 then none
  else
    let ct := data.take (data.length - 16)
    let tg := data.drop (data.length - 16)
    if tg = sealTag key nonce aad ct then some (xorStream key nonce 0 ct) else none

namespace RustCrypto

/-- The tail of `RustCrypto::encrypt` (lib.rs lines 116–136) after key
validation and nonce selection: `Nonce::try_assume_unique_for_key` (which
fails unless the nonce is 12 bytes — a `PyRuntimeError`, hence
`CryptoBackendFailure`), the AEAD seal, and envelope assembly.  The
`aad_bytes` default and the empty-AAD-to-`None` echo follow lines 120 and
134 exactly. -/
def encryptCore (key : KeyRef) (material plaintext nonce_bytes : List Nat)
    (aad : Option (List Nat)) : Except CryptoError AEADCiphertext :=
  if nonce_bytes.length ≠ 12 then .error .CryptoBackendFailure
  else
    let aad_bytes := aad.getD []
    let sealed := ringSeal material nonce_bytes aad_bytes plaintext
    .ok { kid := key.kid, version := key.version, alg := "CHACHA20-POLY1305",
          nonce := nonce_bytes, ct := sealed.1, tag := sealed.2,
          aad := if aad_bytes.isEmpty then none else some aad_bytes }

/-- `RustCrypto::encrypt` (lib.rs lines 88–136).  `rng` models the
`SystemRandom` handle the call constructs.  Key material must be present
and 32 bytes (`InvalidKey`); a caller-supplied nonce must be 12 bytes
(`InvalidNonce`); an omitted nonce is drawn from the RNG
(`CryptoBackendFailure` on RNG failure).  `UnboundKey::new` cannot fail
once the 32-byte check has passed, so it introduces no further branch. -/
def encrypt (rng : SystemRandom) (key : KeyRef) (plaintext : List Nat)
    (nonce : Option (List Nat)) (aad : Option (List Nat)) :
    Except CryptoError AEADCiphertext :=
  match key.material with
  | none => .error .InvalidKey
  | some material =>
    if material.length ≠ 32 then .error .InvalidKey
    else
      match nonce with
      | some n =>
        if n.length ≠ 12 then .error .InvalidNonce
        else encryptCore key material plaintext n aad
      | none =>
        match rng.fill (List.replicate 12 0) with
        | none => .error .CryptoBackendFailure
        | some nb => encryptCore key material plaintext nb aad

/-- `RustCrypto::decrypt` (lib.rs lines 139–168).  Key validation as in
encrypt; `Nonce::try_assume_unique_for_key` on the stored nonce (a
`PyRuntimeError` unless it is 12 bytes, hence `CryptoBackendFailure`); the
effective AAD is `aad.or(ciphertext.aad).unwrap_or(&[])` (line 157);
`ct` and `tag` are concatenated (lines 161–162) and opened; an open
failure is the uniform `AuthenticationFailure` (line 165). -/
def decrypt (key : KeyRef) (ciphertext : AEADCiphertext)
    (aad : Option (List Nat)) : Except CryptoError (List Nat) :=
  match key.material with
  | none => .error .InvalidKey
  | some material =>
    if material.length ≠ 32 then .error .InvalidKey
    else if ciphertext.nonce.length ≠ 12 then .error .CryptoBackendFailure
    else
      let aad_bytes := (aad.or ciphertext.aad).getD []
      let combined := ciphertext.ct ++ ciphertext.tag
      match ringOpen material ciphertext.nonce aad_bytes combined with
      | some pt => .ok pt
      | none => .error .AuthenticationFailure

/-- `RustCrypto::generate_key` (lib.rs lines 171–177): fill a buffer of
`size` zero bytes from the secure random source. -/
def generate_key (rng : SystemRandom) (size : Nat) : Except CryptoError (List Nat) :=
  match rng.fill (List.replicate size 0) with
  | none => .error .CryptoBackendFailure
  | some k => .ok k

/-- `RustCrypto::wrap` (lib.rs lines 195–216): the placeholder wrap — the
DEK must be 32 bytes (`InvalidKey` otherwise), then the envelope is
`dek ‖ 16 random padding bytes`, labelled with the KEK identity and the
algorithm name `"ECDH-ES+A256KW"` that is never actually executed. -/
def wrap (rng : SystemRandom) (kek : KeyRef) (dek : List Nat) :
    Except CryptoError WrappedKey :=
  if dek.length ≠ 32 then .error .InvalidKey
  else
    match rng.fill (List.replicate 16 0) with
    | none => .error .CryptoBackendFailure
    | some padding =>
      .ok { kek_kid := kek.kid, kek_version := kek.version,
            wrap_alg := "ECDH-ES+A256KW", wrapped := dek ++ padding }

/-- `RustCrypto::unwrap` (lib.rs lines 219–226): the placeholder unwrap —
fails (a `PyValueError`, the spec's `UnwrapFailure`) when fewer than 32
wrapped bytes are present, otherwise returns the first 32 bytes.  The KEK
argument is unused in the source (it is named `_kek` there). -/
def unwrap (_kek : KeyRef) (wrapped : WrappedKey) : Except CryptoError (List Nat) :=
  if wrapped.wrapped.length < 32 then .error .UnwrapFailure
  else .ok (wrapped.wrapped.take 32)

end RustCrypto

/-! Concrete values used by the closed witness and counterexample theorems. -/

deriving instance DecidableEq for Except

/-- A valid key: 32 zero bytes of material (the spec's concrete scenario). -/
def key0 : KeyRef :=
  { kid := "k0", version := 1, key_type := "symmetric", uses := ["encrypt", "decrypt"],
    material := some (List.replicate 32 0), public := none }

/-- A key with no material. -/
def keyNone : KeyRef :=
  { kid := "kn", version := 1, key_type := "symmetric", uses := [],
    material := none, public := none }

/-- A key whose material has the wrong length. -/
def keyShort : KeyRef :=
  { kid := "ks", version := 1, key_type := "symmetric", uses := [],
    material := some [1, 2, 3], public := none }

/-- An available deterministic random source. -/
def rng0 : SystemRandom := { ok := true, byteAt := fun i => (i * 17 + 3) % 256 }

/-- An unavailable random source. -/
def rngDead : SystemRandom := { ok := false, byteAt := fun _ => 0 }

/-- The spec's concrete plaintext, the bytes of "hello". -/
def pt0 : List Nat := [104, 101, 108, 108, 111]

/-- An all-zero 12-byte nonce. -/
def nonce0 : List Nat := List.replicate 12 0

/-- The spec's concrete AAD, the bytes of "ctx". -/
def aadCtx : List Nat := [99, 116, 120]

/-- The spec's concrete mismatching AAD, the bytes of "other". -/
def aadOther : List Nat := [111, 116, 104, 101, 114]

/-- The envelope encrypt produces for `pt0` under `key0`, `nonce0`, `aadCtx`. -/
def envC : AEADCiphertext :=
  { kid := "k0", version := 1, alg := "CHACHA20-POLY1305", nonce := nonce0,
    ct := xorStream (List.replicate 32 0) nonce0 0 pt0,
    tag := sealTag (List.replicate 32 0) nonce0 aadCtx
             (xorStream (List.replicate 32 0) nonce0 0 pt0),
    aad := some aadCtx }

/-- The honest ciphertext body for `pt0` under `key0`/`nonce0`, empty AAD. -/
def ct0 : List Nat := xorStream (List.replicate 32 0) nonce0 0 pt0

/-- The honest tag for `ct0` under `key0`/`nonce0`, empty AAD. -/
def tag0 : List Nat := sealTag (List.replicate 32 0) nonce0 [] ct0

/-- A malformed envelope: empty ct, and a 21-byte tag holding `ct0 ++ tag0`. -/
def malformed0 : AEADCiphertext :=
  { kid := "k0", version := 1, alg := "CHACHA20-POLY1305", nonce := nonce0,
    ct := [], tag := ct0 ++ tag0, aad := none }

/-- An envelope whose nonce has the wrong length. -/
def badNonceEnv : AEADCiphertext :=
  { kid := "k0", version := 1, alg := "CHACHA20-POLY1305", nonce := [0, 0],
    ct := ct0, tag := tag0, aad := none }

/-- A KEK for the wrap/unwrap claims. -/
def kekA : KeyRef :=
  { kid := "kekA", version := 1, key_type := "symmetric", uses := ["wrap"],
    material := some (List.replicate 32 1), public := none }

/-- A second, different KEK (different kid, version and material). -/
def kekB : KeyRef :=
  { kid := "kekB", version := 7, key_type := "symmetric", uses := ["wrap"],
    material := some (List.replicate 32 2), public := none }

/-- A 32-byte DEK. -/
def dekA : List Nat := List.replicate 32 5

/-- The wrapped key that wrap produces for `dekA` under `kekA` with `rng0`. -/
def wA : WrappedKey :=
  { kek_kid := "kekA", kek_version := 1, wrap_alg := "ECDH-ES+A256KW",
    wrapped := dekA ++ (List.range 16).map rng0.byteAt }

/-! Helper lemmas about the modelled primitives. -/

theorem xorStream_length (key nonce : List Nat) :
    ∀ (i : Nat) (l : List Nat), (xorStream key nonce i l).length = l.length := by
  intro i l
  induction l generalizing i with
  | nil => rfl
  | cons b l ih => simp [xorStream, ih]

theorem xorStream_xorStream (key nonce : List Nat) :
    ∀ (i : Nat) (l : List Nat), xorStream key nonce i (xorStream key nonce i l) = l := by
  intro i l
  induction l generalizing i with
  | nil => rfl
  | cons b l ih => simp [xorStream, ih, Nat.xor_cancel_right]

theorem xorStream_bytes (key nonce : List Nat) :
    ∀ (i : Nat) (l : List Nat), (∀ b ∈ l, b < 256) →
      ∀ b ∈ xorStream key nonce i l, b < 256 := by
  intro i l
  induction l generalizing i with
  | nil => intro _ b hb; simp [xorStream] at hb
  | cons a l ih =>
    intro h b hb
    simp only [xorStream, List.mem_cons] at hb
    rcases hb with hb | hb
    · subst hb
      have ha : a < 2 ^ 8 := h a (List.mem_cons_self a l)
      have hk : ksByte key nonce i < 2 ^ 8 := by
        have : (0 : Nat) < 256 := by norm_num
        simpa [ksByte] using Nat.mod_lt (encBytes key + 31 * encBytes nonce + 131 * i) this
      simpa using Nat.xor_lt_two_pow ha hk
    · exact ih (i + 1) (fun b hb => h b (List.mem_cons_of_mem a hb)) b hb

theorem encBytes_pos (l : List Nat) : 0 < encBytes l := by
  cases l with
  | nil => simp [encBytes]
  | cons b l =>
    have := encBytes_pos l
    simp only [encBytes]
    omega

theorem encBytes_inj :
    ∀ (l1 l2 : List Nat), (∀ b ∈ l1, b < 256) → (∀ b ∈ l2, b < 256) →
      encBytes l1 = encBytes l2 → l1 = l2 := by
  intro l1
  induction l1 with
  | nil =>
    intro l2 _ h2 he
    cases l2 with
    | nil => rfl
    | cons b l2 =>
      exfalso
      have := encBytes_pos l2
      simp only [encBytes] at he
      omega
  | cons a l1 ih =>
    intro l2 h1 h2 he
    cases l2 with
    | nil =>
      exfalso
      have := encBytes_pos l1
      simp only [encBytes] at he
      omega
    | cons b l2 =>
      have ha : a < 256 := h1 a (List.mem_cons_self a l1)
      have hb : b < 256 := h2 b (List.mem_cons_self b l2)
      simp only [encBytes, Nat.mod_eq_of_lt ha, Nat.mod_eq_of_lt hb] at he
      have hab : a = b ∧ encBytes l1 = encBytes l2 := by omega
      have := ih l2 (fun x hx => h1 x (List.mem_cons_of_mem a hx))
        (fun x hx => h2 x (List.mem_cons_of_mem b hx)) hab.2
      rw [hab.1, this]

theorem sealTag_length (key nonce aad ct : List Nat) :
    (sealTag key nonce aad ct).length = 16 := by
  simp [sealTag]

/-- The modelled tag determines the AAD and the ciphertext (for byte-valued
inputs): equal tags under the same key and nonce force equal transcripts. -/
theorem sealTag_inj (key nonce : List Nat) (a1 c1 a2 c2 : List Nat)
    (ha1 : ∀ b ∈ a1, b < 256) (hc1 : ∀ b ∈ c1, b < 256)
    (ha2 : ∀ b ∈ a2, b < 256) (hc2 : ∀ b ∈ c2, b < 256)
    (h : sealTag key nonce a1 c1 = sealTag key nonce a2 c2) :
    a1 = a2 ∧ c1 = c2 := by
  simp only [sealTag, List.cons.injEq] at h
  have h2 := (Nat.pair_eq_pair.mp h.1).2
  have h3 := Nat.pair_eq_pair.mp h2
  exact ⟨encBytes_inj a1 a2 ha1 ha2 h3.1, encBytes_inj c1 c2 hc1 hc2 h3.2⟩

/-- Opening exactly what was sealed, with the same key, nonce and AAD,
recovers the plaintext. -/
theorem ringOpen_ringSeal (key nonce aad pt : List Nat) :
    ringOpen key nonce aad
      ((ringSeal key nonce aad pt).1 ++ (ringSeal key nonce aad pt).2) = some pt := by
  have hct : (xorStream key nonce 0 pt).length = pt.length := xorStream_length key nonce 0 pt
  have hlen : ((ringSeal key nonce aad pt).1 ++ (ringSeal key nonce aad pt).2).length
      = pt.length + 16 := by
    simp [ringSeal, hct, sealTag_length]
  rw [ringOpen, if_neg (by omega)]
  have hsub : ((ringSeal key nonce aad pt).1 ++ (ringSeal key nonce aad pt).2).length - 16
      = (ringSeal key nonce aad pt).1.length := by
    simp [ringSeal, hct, sealTag_length]
  simp only [hsub, List.take_left, List.drop_left]
  rw [if_pos (by simp [ringSeal])]
  simp [ringSeal, xorStream_xorStream]

theorem SystemRandom.fill_ok (r : SystemRandom) (buf : List Nat) (h : r.ok = true) :
    r.fill buf = some ((List.range buf.length).map r.byteAt) := by
  simp [SystemRandom.fill, h]

theorem SystemRandom.fill_length (r : SystemRandom) (buf out : List Nat)
    (h : r.fill buf = some out) : out.length = buf.length := by
  by_cases hok : r.ok = true
  · rw [SystemRandom.fill_ok r buf hok] at h
    cases h
    simp
  · simp [SystemRandom.fill, hok] at h

namespace RustCrypto

/-- Inversion: a successful encrypt call determines the key material, a
12-byte nonce, and every field of the produced envelope. -/
theorem encrypt_ok_elim {rng : SystemRandom} {key : KeyRef} {pt : List Nat}
    {nonce a : Option (List Nat)} {env : AEADCiphertext}
    (h : encrypt rng key pt nonce a = .ok env) :
    ∃ m nb, key.material = some m ∧ m.length = 32 ∧ nb.length = 12 ∧
      (nonce = none ∨ nonce = some nb) ∧
      env = { kid := key.kid, version := key.version, alg := "CHACHA20-POLY1305",
              nonce := nb, ct := xorStream m nb 0 pt,
              tag := sealTag m nb (a.getD []) (xorStream m nb 0 pt),
              aad := if (a.getD []).isEmpty then none else some (a.getD []) } := by
  cases hm : key.material with
  | none => simp [encrypt, hm] at h
  | some m =>
    simp only [encrypt, hm] at h
    by_cases hlen : m.length = 32
    · rw [if_neg (by omega)] at h
      cases hn : nonce with
      | some n =>
        simp only [hn] at h
        by_cases hn12 : n.length = 12
        · rw [if_neg (by omega)] at h
          simp only [encryptCore, if_neg (show ¬n.length ≠ 12 by omega),
            Except.ok.injEq] at h
          exact ⟨m, n, rfl, hlen, hn12, Or.inr rfl, h.symm⟩
        · rw [if_pos (by omega)] at h
          exact absurd h (by simp)
      | none =>
        simp only [hn] at h
        cases hf : rng.fill (List.replicate 12 0) with
        | none => simp only [hf] at h; exact absurd h (by simp)
        | some nb =>
          simp only [hf] at h
          have hnb : nb.length = 12 := by
            have := SystemRandom.fill_length rng _ nb hf
            simpa using this
          simp only [encryptCore, if_neg (show ¬nb.length ≠ 12 by omega),
            Except.ok.injEq] at h
          exact ⟨m, nb, rfl, hlen, hnb, Or.inl rfl, h.symm⟩
    · rw [if_pos (by omega)] at h
      exact absurd h (by simp)

/-- Decrypting a sealed envelope whose effective AAD (explicit argument
with precedence over the stored field, defaulting to empty) equals the
AAD the tag was sealed over recovers the plaintext; the kid, version and
alg fields are never consulted. -/
theorem decrypt_sealed {key : KeyRef} {m nb pt aadE : List Nat}
    {a o : Option (List Nat)} {k0 : String} {v0 : Nat} {al0 : String}
    (hm : key.material = some m) (hlen : m.length = 32) (hnb : nb.length = 12)
    (haad : (a.or o).getD [] = aadE) :
    decrypt key { kid := k0, version := v0, alg := al0, nonce := nb,
                  ct := xorStream m nb 0 pt,
                  tag := sealTag m nb aadE (xorStream m nb 0 pt), aad := o } a = .ok pt := by
  simp only [decrypt, hm]
  rw [if_neg (by omega)]
  rw [if_neg (by simp [hnb])]
  simp only [haad]
  have := ringOpen_ringSeal m nb aadE pt
  simp only [ringSeal] at this
  rw [this]

end RustCrypto

/-- The AAD encrypt echoes into the envelope never changes the effective AAD
at decrypt time when decrypt is called with the same optional AAD. -/
theorem aad_or_echo (a : Option (List Nat)) :
    (a.or (if (a.getD []).isEmpty then none else some (a.getD []))).getD [] = a.getD [] := by
  cases a with
  | none => simp [Option.or]
  | some x => simp [Option.or]

/-- Opening a buffer that ends in a 16-byte tag compares that tag against
the one recomputed over the prefix. -/
theorem ringOpen_split (key nonce aad ct tg : List Nat) (htg : tg.length = 16) :
    ringOpen key nonce aad (ct ++ tg) =
      if tg = sealTag key nonce aad ct then some (xorStream key nonce 0 ct) else none := by
  rw [ringOpen, if_neg (by simp [htg])]
  have h1 : (ct ++ tg).length - 16 = ct.length := by simp [htg]
  rw [h1, List.take_left, List.drop_left]

namespace RustCrypto

/-- With a valid key and nonce, decrypt fails with the single uniform
`AuthenticationFailure` exactly when the AEAD open of ct ‖ tag fails. -/
theorem decrypt_open_none {key : KeyRef} {m : List Nat} {env : AEADCiphertext}
    {a : Option (List Nat)}
    (hm : key.material = some m) (hlen : m.length = 32) (hnb : env.nonce.length = 12)
    (hopen : ringOpen m env.nonce ((a.or env.aad).getD []) (env.ct ++ env.tag) = none) :
    decrypt key env a = .error .AuthenticationFailure := by
  simp only [decrypt, hm]
  rw [if_neg (by omega), if_neg (by omega)]
  simp only [hopen]

end RustCrypto

/-! The claims. -/

/-- C1: for every key whose material is exactly 32 bytes, every plaintext,
and every optional AAD, decrypt(key, encrypt(key, plaintext, aad), aad)
succeeds and returns exactly the original plaintext, whether the nonce was
caller-supplied (12 bytes) or auto-generated from an available random
source. -/
theorem C1_encrypt_decrypt_round_trip
    (rng : SystemRandom) (key : KeyRef) (m plaintext : List Nat)
    (nonce a : Option (List Nat))
    (hm : key.material = some m) (hlen : m.length = 32) (hrng : rng.ok = true)
    (hn : ∀ nb, nonce = some nb → nb.length = 12) :
    ∃ env, RustCrypto.encrypt rng key plaintext nonce a = .ok env ∧
      RustCrypto.decrypt key env a = .ok plaintext := by
  have core_eq : ∀ nb : List Nat, nb.length = 12 →
      RustCrypto.encryptCore key m plaintext nb a =
        .ok { kid := key.kid, version := key.version, alg := "CHACHA20-POLY1305",
              nonce := nb, ct := xorStream m nb 0 plaintext,
              tag := sealTag m nb (a.getD []) (xorStream m nb 0 plaintext),
              aad := if (a.getD []).isEmpty then none else some (a.getD []) } := by
    intro nb hnb
    simp only [RustCrypto.encryptCore, if_neg (show ¬nb.length ≠ 12 by omega)]
    rfl
  cases hnc : nonce with
  | some n =>
    have hn12 := hn n hnc
    have henc : RustCrypto.encrypt rng key plaintext (some n) a =
        .ok { kid := key.kid, version := key.version, alg := "CHACHA20-POLY1305",
              nonce := n, ct := xorStream m n 0 plaintext,
              tag := sealTag m n (a.getD []) (xorStream m n 0 plaintext),
              aad := if (a.getD []).isEmpty then none else some (a.getD []) } := by
      simp only [RustCrypto.encrypt, hm]
      rw [if_neg (show ¬m.length ≠ 32 by omega), if_neg (show ¬n.length ≠ 12 by omega)]
      exact core_eq n hn12
    exact ⟨_, henc, RustCrypto.decrypt_sealed hm hlen hn12 (aad_or_echo a)⟩
  | none =>
    have hnb : ((List.range (List.replicate 12 (0 : Nat)).length).map rng.byteAt).length = 12 := by
      simp
    have henc : RustCrypto.encrypt rng key plaintext none a =
        .ok { kid := key.kid, version := key.version, alg := "CHACHA20-POLY1305",
              nonce := (List.range (List.replicate 12 (0 : Nat)).length).map rng.byteAt,
              ct := xorStream m ((List.range (List.replicate 12 (0 : Nat)).length).map rng.byteAt) 0 plaintext,
              tag := sealTag m ((List.range (List.replicate 12 (0 : Nat)).length).map rng.byteAt)
                       (a.getD [])
                       (xorStream m ((List.range (List.replicate 12 (0 : Nat)).length).map rng.byteAt) 0 plaintext),
              aad := if (a.getD []).isEmpty then none else some (a.getD []) } := by
      simp only [RustCrypto.encrypt, hm]
      rw [if_neg (show ¬m.length ≠ 32 by omega), SystemRandom.fill_ok rng _ hrng]
      exact core_eq _ hnb
    exact ⟨_, henc, RustCrypto.decrypt_sealed hm hlen hnb (aad_or_echo a)⟩

/-- C1 witness: the spec's concrete scenario — key of 32 zero bytes,
plaintext "hello", AAD "ctx", explicit zero nonce — round-trips. -/
theorem C1_witness :
    ∃ env, RustCrypto.encrypt rng0 key0 pt0 (some nonce0) (some aadCtx) = .ok env ∧
      RustCrypto.decrypt key0 env (some aadCtx) = .ok pt0 :=
  C1_encrypt_decrypt_round_trip rng0 key0 (List.replicate 32 0) pt0 (some nonce0)
    (some aadCtx) rfl (by decide) (by decide)
    (by intro nb h; cases h; decide)

/-- C6: every successful encrypt call returns an envelope whose ct has
exactly the plaintext's length, whose tag is 16 bytes and nonce 12 bytes,
whose alg is "CHACHA20-POLY1305", whose kid and version are copied from the
supplied key, and whose aad field is None when the supplied AAD was absent
or empty and echoes the supplied AAD otherwise. -/
theorem C6_encrypt_envelope_shape
    (rng : SystemRandom) (key : KeyRef) (pt : List Nat) (nonce a : Option (List Nat))
    (env : AEADCiphertext) (h : RustCrypto.encrypt rng key pt nonce a = .ok env) :
    env.ct.length = pt.length ∧ env.tag.length = 16 ∧ env.nonce.length = 12 ∧
    env.alg = "CHACHA20-POLY1305" ∧ env.kid = key.kid ∧ env.version = key.version ∧
    ((a = none ∨ a = some []) → env.aad = none) ∧
    (∀ x, a = some x → x ≠ [] → env.aad = some x) := by
  obtain ⟨m, nb, hm, hlen, hnb, -, henv⟩ := RustCrypto.encrypt_ok_elim h
  subst henv
  refine ⟨xorStream_length m nb 0 pt, sealTag_length m nb (a.getD []) _, hnb,
    rfl, rfl, rfl, ?_, ?_⟩
  · rintro (rfl | rfl) <;> simp
  · rintro x rfl hne
    simp [hne]

/-- C6 witness: the concrete envelope for "hello" under the zero key, the
zero nonce and AAD "ctx" has all the claimed field values. -/
theorem C6_witness :
    envC.ct.length = pt0.length ∧ envC.tag.length = 16 ∧ envC.nonce.length = 12 ∧
    envC.alg = "CHACHA20-POLY1305" ∧ envC.kid = key0.kid ∧
    envC.version = key0.version ∧ envC.aad = some aadCtx := by
  obtain ⟨h1, h2, h3, h4, h5, h6, -, h8⟩ :=
    C6_encrypt_envelope_shape rng0 key0 pt0 (some nonce0) (some aadCtx) envC (by decide)
  exact ⟨h1, h2, h3, h4, h5, h6, h8 aadCtx rfl (by decide)⟩

/-- C9: generate_key(n) returns exactly n bytes whenever the secure random
source is available, and fails — with CryptoBackendFailure and only then —
exactly when the source is unavailable. -/
theorem C9_generate_key_length_and_failure (rng : SystemRandom) (n : Nat) :
    (rng.ok = true → ∃ k, RustCrypto.generate_key rng n = .ok k ∧ k.length = n) ∧
    (rng.ok = false → RustCrypto.generate_key rng n = .error .CryptoBackendFailure) ∧
    (∀ e, RustCrypto.generate_key rng n = .error e →
      rng.ok = false ∧ e = .CryptoBackendFailure) := by
  refine ⟨?_, ?_, ?_⟩
  · intro hok
    refine ⟨(List.range (List.replicate n (0 : Nat)).length).map rng.byteAt, ?_, by simp⟩
    simp only [RustCrypto.generate_key]
    rw [SystemRandom.fill_ok rng _ hok]
  · intro hbad
    simp [RustCrypto.generate_key, SystemRandom.fill, hbad]
  · intro e he
    cases hok : rng.ok with
    | true =>
      exfalso
      simp only [RustCrypto.generate_key] at he
      rw [SystemRandom.fill_ok rng _ hok] at he
      exact absurd he (by simp)
    | false =>
      simp [RustCrypto.generate_key, SystemRandom.fill, hok] at he
      exact ⟨rfl, he.symm⟩

/-- C9 witness: with an available source, generate_key 5 returns 5 bytes;
with an unavailable one it fails with CryptoBackendFailure. -/
theorem C9_witness :
    (∃ k, RustCrypto.generate_key rng0 5 = .ok k ∧ k.length = 5) ∧
    RustCrypto.generate_key rngDead 5 = .error .CryptoBackendFailure :=
  ⟨(C9_generate_key_length_and_failure rng0 5).1 rfl,
   ((C9_generate_key_length_and_failure rngDead 5).2).1 rfl⟩

/-- C10: unwrap's result is entirely independent of the KEK argument — for
any two KeyRefs and any WrappedKey with at least 32 wrapped bytes, unwrap
succeeds under both and returns the first 32 bytes of the wrapped field;
the KEK's material is never consulted. -/
theorem C10_unwrap_independent_of_kek (kek1 kek2 : KeyRef) (w : WrappedKey)
    (h : 32 ≤ w.wrapped.length) :
    RustCrypto.unwrap kek1 w = .ok (w.wrapped.take 32) ∧
    RustCrypto.unwrap kek2 w = RustCrypto.unwrap kek1 w := by
  refine ⟨?_, rfl⟩
  simp only [RustCrypto.unwrap]
  rw [if_neg (by omega)]

/-- C10 witness: two different KEKs, one concrete 48-byte wrapped envelope. -/
theorem C10_witness :
    RustCrypto.unwrap kekA wA = .ok (wA.wrapped.take 32) ∧
    RustCrypto.unwrap kekB wA = RustCrypto.unwrap kekA wA :=
  C10_unwrap_independent_of_kek kekA kekB wA (by decide)

/-- C5: for every KEK and every 32-byte DEK (and an available random
source for the padding), unwrap(kek, wrap(kek, dek)) returns exactly dek;
and for every DEK that is not exactly 32 bytes, wrap fails with
InvalidKey. -/
theorem C5_wrap_unwrap_round_trip (rng : SystemRandom) (kek : KeyRef) (dek : List Nat) :
    (dek.length = 32 → rng.ok = true →
      ∃ w, RustCrypto.wrap rng kek dek = .ok w ∧ RustCrypto.unwrap kek w = .ok dek) ∧
    (dek.length ≠ 32 → RustCrypto.wrap rng kek dek = .error .InvalidKey) := by
  constructor
  · intro h32 hok
    refine ⟨{ kek_kid := kek.kid, kek_version := kek.version,
              wrap_alg := "ECDH-ES+A256KW",
              wrapped := dek ++ (List.range (List.replicate 16 (0 : Nat)).length).map rng.byteAt },
            ?_, ?_⟩
    · simp only [RustCrypto.wrap, if_neg (show ¬dek.length ≠ 32 by omega)]
      rw [SystemRandom.fill_ok rng _ hok]
    · have hlen : (dek ++ (List.range (List.replicate 16 (0 : Nat)).length).map rng.byteAt).length
          = 48 := by simp [h32]
      simp only [RustCrypto.unwrap]
      rw [if_neg (by simp only [hlen]; omega)]
      have htake : (dek ++ (List.range (List.replicate 16 (0 : Nat)).length).map rng.byteAt).take 32
          = dek := by
        rw [← h32]
        exact List.take_left dek _
      rw [htake]
  · intro hne
    simp only [RustCrypto.wrap, if_pos (show dek.length ≠ 32 from hne)]

/-- C5 witness: the concrete 32-byte DEK round-trips under kekA, and a
2-byte DEK is rejected with InvalidKey. -/
theorem C5_witness :
    (∃ w, RustCrypto.wrap rng0 kekA dekA = .ok w ∧ RustCrypto.unwrap kekA w = .ok dekA) ∧
    RustCrypto.wrap rng0 kekA [1, 2] = .error .InvalidKey :=
  ⟨(C5_wrap_unwrap_round_trip rng0 kekA dekA).1 (by decide) rfl,
   (C5_wrap_unwrap_round_trip rng0 kekA [1, 2]).2 (by decide)⟩

/-- C4: the claim says unwrap must fail with UnwrapFailure whenever the
WrappedKey's integrity/authenticity cannot be verified (wrong KEK,
corrupted envelope).  The code never verifies anything: this closed theorem
evaluates the code at the failing input — `wA` is produced by wrap under
`kekA`, yet unwrap under the different KEK `kekB` succeeds and returns the
DEK, and so does unwrap of a corrupted envelope (its 16 padding bytes
replaced).  The source itself marks wrap/unwrap as placeholders, and the
spec (4.4, 9) flags the gap, so the claim is the intended contract and the
code is the bug. -/
theorem C4_unwrap_never_verifies :
    RustCrypto.wrap rng0 kekA dekA = .ok wA ∧
    RustCrypto.unwrap kekB wA = .ok dekA ∧
    RustCrypto.unwrap kekB { wA with wrapped := dekA ++ List.replicate 16 9 } = .ok dekA := by
  refine ⟨?_, ?_, ?_⟩ <;> decide

/-- C3: a key whose material is absent or not exactly 32 bytes makes both
encrypt and decrypt fail with InvalidKey; with a valid key, a
caller-supplied nonce that is not exactly 12 bytes makes encrypt fail with
InvalidNonce.  (All operations are total Lean functions returning a typed
result, mirroring that the Rust code returns PyResult and never panics on
these inputs.) -/
theorem C3_key_and_nonce_validation
    (rng : SystemRandom) (key : KeyRef) (pt : List Nat)
    (nonce a a2 : Option (List Nat)) (env : AEADCiphertext) :
    ((key.material = none ∨ ∃ m, key.material = some m ∧ m.length ≠ 32) →
      RustCrypto.encrypt rng key pt nonce a = .error .InvalidKey ∧
      RustCrypto.decrypt key env a2 = .error .InvalidKey) ∧
    (∀ m nb, key.material = some m → m.length = 32 → nonce = some nb → nb.length ≠ 12 →
      RustCrypto.encrypt rng key pt nonce a = .error .InvalidNonce) := by
  constructor
  · rintro (hm | ⟨m, hm, hne⟩)
    · exact ⟨by simp [RustCrypto.encrypt, hm], by simp [RustCrypto.decrypt, hm]⟩
    · constructor
      · simp only [RustCrypto.encrypt, hm]
        rw [if_pos (show m.length ≠ 32 from hne)]
      · simp only [RustCrypto.decrypt, hm]
        rw [if_pos (show m.length ≠ 32 from hne)]
  · intro m nb hm h32 hnb hn12
    simp only [RustCrypto.encrypt, hm, hnb]
    rw [if_neg (show ¬m.length ≠ 32 by omega), if_pos (show nb.length ≠ 12 from hn12)]

/-- C3 witness: a key without material and one with 3-byte material are
rejected with InvalidKey by both operations; a 2-byte nonce is rejected
with InvalidNonce under the valid key. -/
theorem C3_witness :
    (RustCrypto.encrypt rng0 keyNone pt0 none none = .error .InvalidKey ∧
      RustCrypto.decrypt keyNone envC none = .error .InvalidKey) ∧
    (RustCrypto.encrypt rng0 keyShort pt0 none none = .error .InvalidKey ∧
      RustCrypto.decrypt keyShort envC none = .error .InvalidKey) ∧
    RustCrypto.encrypt rng0 key0 pt0 (some [0, 0]) none = .error .InvalidNonce :=
  ⟨(C3_key_and_nonce_validation rng0 keyNone pt0 none none none envC).1 (Or.inl rfl),
   (C3_key_and_nonce_validation rng0 keyShort pt0 none none none envC).1
     (Or.inr ⟨[1, 2, 3], rfl, by decide⟩),
   (C3_key_and_nonce_validation rng0 key0 pt0 (some [0, 0]) none none envC).2
     (List.replicate 32 0) [0, 0] rfl (by decide) rfl (by decide)⟩

/-- C7: in decrypt, an explicitly supplied aad always takes precedence over
any aad stored on the envelope (the stored field is then irrelevant); when
neither an explicit nor a stored aad is present, decryption proceeds with
empty AAD (the same result as supplying an explicit empty aad).
Consequently, for a ciphertext carrying its encryption AAD in the envelope,
decrypt succeeds both with no explicit aad and with an explicit aad equal
to the encryption AAD. -/
theorem C7_decrypt_aad_precedence
    (rng : SystemRandom) (key : KeyRef) (pt x : List Nat)
    (nonce : Option (List Nat)) (env : AEADCiphertext)
    (henc : RustCrypto.encrypt rng key pt nonce (some x) = .ok env) (hx : x ≠ []) :
    (∀ (key2 : KeyRef) (env2 : AEADCiphertext) (o : Option (List Nat)) (z : List Nat),
      RustCrypto.decrypt key2 { env2 with aad := o } (some z) =
        RustCrypto.decrypt key2 { env2 with aad := none } (some z)) ∧
    (∀ (key2 : KeyRef) (env2 : AEADCiphertext), env2.aad = none →
      RustCrypto.decrypt key2 env2 none = RustCrypto.decrypt key2 env2 (some [])) ∧
    (env.aad = some x ∧
      RustCrypto.decrypt key env none = .ok pt ∧
      RustCrypto.decrypt key env (some x) = .ok pt) := by
  refine ⟨fun key2 env2 o z => rfl, ?_, ?_⟩
  · intro key2 env2 hnone
    simp [RustCrypto.decrypt, hnone, Option.or]
  · obtain ⟨m, nb, hm, hlen, hnb, -, henv⟩ := RustCrypto.encrypt_ok_elim henc
    subst henv
    have hgd : (some x).getD [] = x := rfl
    have hempty : x.isEmpty = false := by
      cases x with
      | nil => exact absurd rfl hx
      | cons b l => rfl
    refine ⟨by simp [hgd, hempty], ?_, ?_⟩
    · have haad : ((none : Option (List Nat)).or
          (if ((some x).getD []).isEmpty then none else some ((some x).getD []))).getD []
          = (some x).getD [] := by
        simp [hgd, hempty, Option.or]
      exact RustCrypto.decrypt_sealed hm hlen hnb haad
    · exact RustCrypto.decrypt_sealed hm hlen hnb (aad_or_echo (some x))

/-- C7 witness: with the concrete envelope carrying AAD "ctx", the stored
field is overridden by an explicit AAD; decrypt with no explicit AAD and
with the matching explicit AAD both return "hello". -/
theorem C7_witness :
    (RustCrypto.decrypt key0 { envC with aad := some aadOther } (some aadCtx) =
      RustCrypto.decrypt key0 { envC with aad := none } (some aadCtx)) ∧
    envC.aad = some aadCtx ∧
    RustCrypto.decrypt key0 envC none = .ok pt0 ∧
    RustCrypto.decrypt key0 envC (some aadCtx) = .ok pt0 := by
  obtain ⟨h1, -, h3⟩ :=
    C7_decrypt_aad_precedence rng0 key0 pt0 aadCtx (some nonce0) envC (by decide) (by decide)
  exact ⟨h1 key0 envC (some aadOther) aadCtx, h3⟩

/-- C2: for a ciphertext produced by encrypt under a valid 32-byte key,
decrypt fails on a mismatching 16-byte tag, on a truncated ciphertext, and
on an AAD mismatch (for example encrypting with aad "ctx" and decrypting
with aad "other"), and the failure is uniform: all three cases return the
one error value `AuthenticationFailure`, revealing nothing about which
check failed. -/
theorem C2_decrypt_rejects_tampering_uniformly
    (rng : SystemRandom) (key : KeyRef) (pt x y : List Nat)
    (nonce : Option (List Nat)) (env : AEADCiphertext)
    (hpt : ∀ b ∈ pt, b < 256) (hx : ∀ b ∈ x, b < 256) (hy : ∀ b ∈ y, b < 256)
    (henc : RustCrypto.encrypt rng key pt nonce (some x) = .ok env) :
    (∀ t, t.length = 16 → t ≠ env.tag →
      RustCrypto.decrypt key { env with tag := t } (some x) =
        .error .AuthenticationFailure) ∧
    (∀ k, k < env.ct.length →
      RustCrypto.decrypt key { env with ct := env.ct.take k } (some x) =
        .error .AuthenticationFailure) ∧
    (y ≠ x →
      RustCrypto.decrypt key env (some y) = .error .AuthenticationFailure) := by
  obtain ⟨m, nb, hm, hlen, hnb, -, henv⟩ := RustCrypto.encrypt_ok_elim henc
  have htag : env.tag = sealTag m nb x (xorStream m nb 0 pt) := by rw [henv]; rfl
  have hct : env.ct = xorStream m nb 0 pt := by rw [henv]
  have hnonce : env.nonce = nb := by rw [henv]
  have hctbytes : ∀ b ∈ xorStream m nb 0 pt, b < 256 := xorStream_bytes m nb 0 pt hpt
  refine ⟨?_, ?_, ?_⟩
  · intro t ht16 htne
    rw [htag] at htne
    have hopen : ringOpen m nb x (xorStream m nb 0 pt ++ t) = none := by
      rw [ringOpen_split m nb x (xorStream m nb 0 pt) t ht16, if_neg htne]
    refine RustCrypto.decrypt_open_none hm hlen ?_ ?_
    · show env.nonce.length = 12
      rw [hnonce]; exact hnb
    · show ringOpen m env.nonce (((some x).or env.aad).getD []) (env.ct ++ t) = none
      have heff : ((some x).or env.aad).getD [] = x := rfl
      rw [heff, hnonce, hct]
      exact hopen
  · intro k hk
    rw [hct] at hk
    have hopen : ringOpen m nb x
        ((xorStream m nb 0 pt).take k ++ sealTag m nb x (xorStream m nb 0 pt)) = none := by
      rw [ringOpen_split m nb x ((xorStream m nb 0 pt).take k) _ (sealTag_length m nb x _),
        if_neg]
      intro hcontra
      have hinj := sealTag_inj m nb x (xorStream m nb 0 pt) x ((xorStream m nb 0 pt).take k)
        hx hctbytes hx (fun b hb => hctbytes b (List.take_subset k _ hb)) hcontra
      have hlen2 := congrArg List.length hinj.2
      rw [List.length_take] at hlen2
      omega
    refine RustCrypto.decrypt_open_none hm hlen ?_ ?_
    · show env.nonce.length = 12
      rw [hnonce]; exact hnb
    · show ringOpen m env.nonce (((some x).or env.aad).getD [])
        (env.ct.take k ++ env.tag) = none
      have heff : ((some x).or env.aad).getD [] = x := rfl
      rw [heff, hnonce, hct, htag]
      exact hopen
  · intro hyx
    have hopen : ringOpen m nb y
        (xorStream m nb 0 pt ++ sealTag m nb x (xorStream m nb 0 pt)) = none := by
      rw [ringOpen_split m nb y (xorStream m nb 0 pt) _ (sealTag_length m nb x _), if_neg]
      intro hcontra
      have hinj := sealTag_inj m nb x (xorStream m nb 0 pt) y (xorStream m nb 0 pt)
        hx hctbytes hy hctbytes hcontra
      exact hyx hinj.1.symm
    refine RustCrypto.decrypt_open_none hm hlen ?_ ?_
    · show env.nonce.length = 12
      rw [hnonce]; exact hnb
    · show ringOpen m env.nonce (((some y).or env.aad).getD []) (env.ct ++ env.tag) = none
      have heff : ((some y).or env.aad).getD [] = y := rfl
      rw [heff, hnonce, hct, htag]
      exact hopen

/-- C2 witness: the spec's concrete scenario — zero key, "hello", AAD
"ctx" — with a zeroed tag, with the ciphertext truncated to 2 bytes, and
with AAD "other" at decrypt time: all three fail with the same
AuthenticationFailure. -/
theorem C2_witness :
    RustCrypto.decrypt key0 { envC with tag := List.replicate 16 0 } (some aadCtx) =
      .error .AuthenticationFailure ∧
    RustCrypto.decrypt key0 { envC with ct := envC.ct.take 2 } (some aadCtx) =
      .error .AuthenticationFailure ∧
    RustCrypto.decrypt key0 envC (some aadOther) = .error .AuthenticationFailure := by
  obtain ⟨h1, h2, h3⟩ := C2_decrypt_rejects_tampering_uniformly rng0 key0 pt0 aadCtx
    aadOther (some nonce0) envC (by decide) (by decide) (by decide) (by decide)
  exact ⟨h1 (List.replicate 16 0) (by decide) (by decide), h2 2 (by decide), h3 (by decide)⟩

/-- C8 counterexample: the claim — every envelope whose nonce is not 12
bytes or whose tag is not 16 bytes is rejected by decrypt for every key —
is false for the tag half.  `malformed0` carries an empty ct and a 21-byte
tag holding `ct0 ++ tag0` (the honest ciphertext and tag that encrypt
produces for "hello" under the zero key, zero nonce, no AAD); decrypt only
authenticates the concatenation ct ‖ tag, which re-parses to the authentic
transcript, so this malformed envelope decrypts successfully to "hello". -/
theorem C8_counterexample :
    RustCrypto.encrypt rng0 key0 pt0 (some nonce0) none =
      .ok { kid := "k0", version := 1, alg := "CHACHA20-POLY1305", nonce := nonce0,
            ct := ct0, tag := tag0, aad := none } ∧
    malformed0.tag.length = 21 ∧
    RustCrypto.decrypt key0 malformed0 none = .ok pt0 := by
  refine ⟨?_, ?_, ?_⟩ <;> decide

/-- C8 (amended): decrypt rejects every envelope whose nonce is not
exactly 12 bytes, for every key and AAD, with a typed error (never a
panic); the tag length, however, is not itself validated — with a valid
key and a 12-byte nonce, decrypt fails (with AuthenticationFailure)
exactly when the AEAD open of the recombined ct ‖ tag buffer fails,
whatever the stored tag's length, so a wrong-length tag is rejected only
when that buffer fails authentication. -/
theorem C8_bad_nonce_rejected_tag_length_unchecked
    (key : KeyRef) (env : AEADCiphertext) (a : Option (List Nat)) :
    (env.nonce.length ≠ 12 → ∃ e, RustCrypto.decrypt key env a = .error e) ∧
    (∀ m, key.material = some m → m.length = 32 → env.nonce.length = 12 →
      (RustCrypto.decrypt key env a = .error .AuthenticationFailure ↔
        ringOpen m env.nonce ((a.or env.aad).getD []) (env.ct ++ env.tag) = none)) := by
  constructor
  · intro hn12
    cases hm : key.material with
    | none => exact ⟨.InvalidKey, by simp [RustCrypto.decrypt, hm]⟩
    | some m =>
      by_cases hlen : m.length = 32
      · refine ⟨.CryptoBackendFailure, ?_⟩
        simp only [RustCrypto.decrypt, hm]
        rw [if_neg (by omega), if_pos (by omega)]
      · refine ⟨.InvalidKey, ?_⟩
        simp only [RustCrypto.decrypt, hm]
        rw [if_pos (by omega)]
  · intro m hm hlen hn12
    simp only [RustCrypto.decrypt, hm]
    rw [if_neg (by omega), if_neg (by omega)]
    cases ho : ringOpen m env.nonce ((a.or env.aad).getD []) (env.ct ++ env.tag) with
    | none => simp [ho]
    | some p => simp [ho]

/-- C8 amended-claim witness: an envelope with a 2-byte nonce is rejected
under the valid zero key, and the honest envelope's AuthenticationFailure
behaviour coincides with the open of its ct ‖ tag buffer. -/
theorem C8_witness :
    (∃ e, RustCrypto.decrypt key0 badNonceEnv none = .error e) ∧
    (RustCrypto.decrypt key0 malformed0 none = .error .AuthenticationFailure ↔
      ringOpen (List.replicate 32 0) malformed0.nonce
        (((none : Option (List Nat)).or malformed0.aad).getD [])
        (malformed0.ct ++ malformed0.tag) = none) :=
  ⟨(C8_bad_nonce_rejected_tag_length_unchecked key0 badNonceEnv none).1 (by decide),
   (C8_bad_nonce_rejected_tag_length_unchecked key0 malformed0 none).2
     (List.replicate 32 0) rfl (by decide) (by decide)⟩
